import Mathlib

/-!
Shallow embedding, in Lean, of the algorithmic core of a small historical-migration
data pipeline (CSV preprocessing scripts plus a dashboard app).  Tables are embedded
as lists of records, the pandas/NumPy library calls appearing in the sources are
modelled by their documented behaviour, and Python floats that can be NaN are
modelled by an explicit sum type.  The theorems at the end of the file settle the
behavioural properties of the sampling, field-normalisation, date-parsing,
category-derivation, clustering-preparation, profiling and cross-tabulation steps.
-/

namespace Migration

open List (Perm)

/- ### Generic list machinery -/

/-- Insertion step of a Boolean-comparator insertion sort. -/
def insertByB {α : Type} (le : α → α → Bool) (x : α) : List α → List α
  | [] => [x]
  | y :: t => if le x y then x :: y :: t else y :: insertByB le x t

/-- Insertion sort by a Boolean comparator; models the ascending key orderings that
pandas `groupby` and `Series.mode` produce. -/
def sortByB {α : Type} (le : α → α → Bool) : List α → List α
  | [] => []
  | x :: t => insertByB le x (sortByB le t)

/-- Concatenation of a list of row groups; models `pd.concat`. -/
def concat_groups {α : Type} : List (List α) → List α
  | [] => []
  | g :: t => g ++ concat_groups t

/- ### Python float values (NaN-aware) and the age-category derivation -/

/-- Model of a Python float cell: either NaN (a missing value propagated by pandas)
or an actual number, modelled as a rational. -/
inductive PyFloat : Type
  | nan : PyFloat
  | num (q : ℚ) : PyFloat
deriving DecidableEq

/-- Model of the Python `<` comparison on possibly-NaN floats: every comparison
involving NaN is false. -/
def pfLtB : PyFloat → PyFloat → Bool
  | .num a, .num b => decide (a < b)
  | _, _ => false

/-- Embedding of `get_age_cat` (src/streamlit_app.py lines 845-862, identical in
src/streamlit.py lines 440-448): the `if age < 15 / elif age < 24 / elif age < 55 /
else` chain over a possibly-NaN age. -/
def get_age_cat (age : PyFloat) : String :=
  if pfLtB age (.num 15) then "Child"
  else if pfLtB age (.num 24) then "YoungAdult"
  else if pfLtB age (.num 55) then "Adult"
  else "Senior"

/- ### Character-list string utilities

Strings manipulated by the preprocessing script are embedded as `List Char`,
so that every operation reduces structurally. -/

/-- Lexicographic comparison of character lists by code point; the ordering Python
uses on `str` and hence the ordering pandas sorts object columns by. -/
def charListLe : List Char → List Char → Bool
  | [], _ => true
  | _ :: _, [] => false
  | a :: as, b :: bs =>
    if a.toNat < b.toNat then true
    else if b.toNat < a.toNat then false
    else charListLe as bs

/-- Lexicographic comparison lifted to `String`. -/
def strLeB (a b : String) : Bool := charListLe a.data b.data

/-- Whitespace trim on both ends; models Python `str.strip()`. -/
def trimChars (l : List Char) : List Char :=
  ((l.dropWhile Char.isWhitespace).reverse.dropWhile Char.isWhitespace).reverse

/-- Substring test by scanning every suffix; models Python `in` / `str.contains`. -/
def containsSeq (sep : List Char) : List Char → Bool
  | [] => sep.isEmpty
  | c :: t => sep.isPrefixOf (c :: t) || containsSeq sep t

/-- Worker for `splitSeq`, with explicit fuel (one unit per consumed character). -/
def splitFuel (sep : List Char) : Nat → List Char → List Char → List (List Char)
  | _, acc, [] => [acc.reverse]
  | 0, acc, rest => [acc.reverse ++ rest]
  | fuel + 1, acc, c :: t =>
    if sep.isPrefixOf (c :: t) && !sep.isEmpty then
      acc.reverse :: splitFuel sep fuel [] ((c :: t).drop sep.length)
    else
      splitFuel sep fuel (c :: acc) t

/-- Left-to-right split on each non-overlapping occurrence of a (nonempty)
separator; models Python `str.split(sep)`. -/
def splitSeq (sep l : List Char) : List (List Char) := splitFuel sep l.length [] l

/- ### FieldNormalizer: departure-port canonicalisation -/

/-- The literal connective `" and "` tested for by the preprocessing script. -/
def sepAnd : List Char := [' ', 'a', 'n', 'd', ' ']

/-- Embedding of the `TransitIndicator` derivation
(src/Code/migration-code-preprocessing.py line 44):
`df["DeparturePlace"].str.contains(" and ", case=False, na=False)`.
`case=False` lower-cases the column before the substring test. -/
def transit_indicator (l : List Char) : Bool :=
  containsSeq sepAnd (l.map Char.toLower)

/-- Embedding of the `DeparturePlace` rewrite
(src/Code/migration-code-preprocessing.py line 45):
`df["DeparturePlace"].str.split(" and ").str[-1].str.strip()` — a case-sensitive
split, last segment, trimmed. -/
def departure_place (l : List Char) : List Char :=
  trimChars ((splitSeq sepAnd l).getLastD [])

/- ### FieldNormalizer: ship-name canonicalisation -/

/-- The vessel-class alternatives of the regex `^(RMS|SS|MV|HMS)\s+`
(src/Code/migration-code-preprocessing.py line 33), in alternation order. -/
def vessel_tokens : List (List Char) :=
  [['R', 'M', 'S'], ['S', 'S'], ['M', 'V'], ['H', 'M', 'S']]

/-- Embedding of `str.replace(r'^(RMS|SS|MV|HMS)\s+', '', regex=True)`: if the
string starts with one of the class tokens followed by at least one whitespace
character, the token and the whitespace run are removed; otherwise the string is
unchanged.  No two tokens can match the same string, so trying the alternatives
in order is exact. -/
def strip_vessel (l : List Char) : List Char :=
  match vessel_tokens.findSome? (fun p =>
    if p.isPrefixOf l then
      match l.drop p.length with
      | c :: rest => if c.isWhitespace then some ((c :: rest).dropWhile Char.isWhitespace) else none
      | [] => none
    else none) with
  | some r => r
  | none => l

/-- Whether the regex `^(RMS|SS|MV|HMS)\s+` matches at all: some class token is a
prefix of the string and is followed by a whitespace character. -/
def has_vessel_tok (l : List Char) : Bool :=
  vessel_tokens.any (fun p =>
    p.isPrefixOf l &&
      match l.drop p.length with
      | c :: _ => c.isWhitespace
      | [] => false)

/-- Embedding of the `ship_mapping` alias table
(src/Code/migration-code-preprocessing.py lines 36-39). -/
def ship_mapping : List (List Char × List Char) :=
  [("Augusta Victoria".data, "Kaiserin Augusta Victoria".data),
   ("Kaiser Wilhelm II".data, "Kaiser Wilhelm II".data)]

/-- Embedding of `df["ShipName"].replace(ship_mapping)` (line 40): pandas
`Series.replace` with a dict replaces exact cell matches only. -/
def replace_ship (s : List Char) : List Char :=
  match ship_mapping.lookup s with
  | some v => v
  | none => s

/-- The full ship-name normalisation of lines 33-40: strip the vessel-class
token, then apply the alias table. -/
def normalize_ship_name (l : List Char) : List Char :=
  replace_ship (strip_vessel l)

/- ### DateNormalizer -/

/-- A parsed calendar date (the payload of a successful `pd.to_datetime`). -/
structure PDate where
  year : Nat
  month : Nat
  day : Nat
deriving DecidableEq

/-- Abbreviated month names matched by the `%b` directive. -/
def month_abbrs : List (List Char) :=
  ["Jan".data, "Feb".data, "Mar".data, "Apr".data, "May".data, "Jun".data,
   "Jul".data, "Aug".data, "Sep".data, "Oct".data, "Nov".data, "Dec".data]

/-- Lower-casing of a character list. -/
def lowerChars (l : List Char) : List Char := l.map Char.toLower

/-- Numeric value of a digit string. -/
def digit_val (l : List Char) : Nat :=
  l.foldl (fun acc c => acc * 10 + (c.toNat - 48)) 0

/-- Parse a nonempty all-digit field. -/
def parse_digits (s : List Char) : Option Nat :=
  if !s.isEmpty && s.all Char.isDigit then some (digit_val s) else none

/-- Model of the `%d` directive: one or two digits, value 1..31. -/
def parse_day (s : List Char) : Option Nat :=
  match parse_digits s with
  | some d => if s.length ≤ 2 && 1 ≤ d && d ≤ 31 then some d else none
  | none => none

/-- Model of the `%m` directive: one or two digits, value 1..12. -/
def parse_month_num (s : List Char) : Option Nat :=
  match parse_digits s with
  | some m => if s.length ≤ 2 && 1 ≤ m && m ≤ 12 then some m else none
  | none => none

/-- Model of the `%b` directive: a case-insensitive abbreviated month name. -/
def parse_month_abbr (s : List Char) : Option Nat :=
  month_abbrs.enum.findSome? (fun p =>
    if lowerChars s == lowerChars p.2 then some (p.1 + 1) else none)

/-- Model of the `%Y` directive: exactly four digits. -/
def parse_year4 (s : List Char) : Option Nat :=
  match parse_digits s with
  | some y => if s.length == 4 then some y else none
  | none => none

/-- Model of the `%y` directive: exactly two digits, with the POSIX pivot
(00-68 maps to 20xx, 69-99 to 19xx) Python's `strptime` applies. -/
def parse_year2 (s : List Char) : Option Nat :=
  match parse_digits s with
  | some y => if s.length == 2 then some (if y ≤ 68 then 2000 + y else 1900 + y) else none
  | none => none

/-- Model of `pd.to_datetime(date_str, format=fmt)` for the four format strings
the script passes; any other format yields no parse.  A failed parse is `none`
(the `except` branch of the script). -/
def to_datetime (fmt : String) (s : List Char) : Option PDate :=
  if fmt = "%d %b %Y" then
    match splitSeq [' '] s with
    | [d, b, y] =>
      match parse_day d, parse_month_abbr b, parse_year4 y with
      | some dd, some mm, some yy => some ⟨yy, mm, dd⟩
      | _, _, _ => none
    | _ => none
  else if fmt = "%d-%b-%y" then
    match splitSeq ['-'] s with
    | [d, b, y] =>
      match parse_day d, parse_month_abbr b, parse_year2 y with
      | some dd, some mm, some yy => some ⟨yy, mm, dd⟩
      | _, _, _ => none
    | _ => none
  else if fmt = "%m/%d/%Y" then
    match splitSeq ['/'] s with
    | [m, d, y] =>
      match parse_month_num m, parse_day d, parse_year4 y with
      | some mm, some dd, some yy => some ⟨yy, mm, dd⟩
      | _, _, _ => none
    | _ => none
  else if fmt = "%m/%d/%y" then
    match splitSeq ['/'] s with
    | [m, d, y] =>
      match parse_month_num m, parse_day d, parse_year2 y with
      | some mm, some dd, some yy => some ⟨yy, mm, dd⟩
      | _, _, _ => none
    | _ => none
  else none

/-- The format list of `parse_dates` (src/Code/migration-code-preprocessing.py
line 17), in declared priority order. -/
def date_formats : List String := ["%d %b %Y", "%d-%b-%y", "%m/%d/%Y", "%m/%d/%y"]

/-- Embedding of `parse_dates` (src/Code/migration-code-preprocessing.py lines
15-22): try each format in order inside try/except, return the first success,
else `pd.NaT` (here `none`). -/
def parse_dates (s : List Char) : Option PDate :=
  date_formats.findSome? (fun fmt => to_datetime fmt s)

/-- Embedding of the derived `ArrivalYear` column (line 25):
`df["ArrivalDate"].dt.year` is missing exactly when the date is `NaT`. -/
def arrival_year (s : List Char) : Option Nat :=
  (parse_dates s).map PDate.year

/- ### CategoryDeriver and ClusterEngine input preparation -/

/-- Rendering of a possibly-missing cell under `astype(str)`: pandas renders a
missing value (NaN) as the string `"nan"`. -/
def optStr : Option String → String
  | some s => s
  | none => "nan"

/-- Model of the Python `in` membership test on a possibly-missing cell: a NaN
cell is a member of no list. -/
def pyMem (x : Option String) (l : List String) : Bool :=
  match x with
  | some s => l.contains s
  | none => false

/-- Embedding of `get_season` (src/streamlit_app.py lines 816-840, identical in
src/streamlit.py lines 421-436). -/
def get_season (month_name : Option String) : String :=
  let winter := ["December", "January", "February"]
  let spring := ["March", "April", "May"]
  let summer := ["June", "July", "August"]
  let fall := ["September", "October", "November"]
  if pyMem month_name winter then "Winter"
  else if pyMem month_name spring then "Spring"
  else if pyMem month_name summer then "Summer"
  else if pyMem month_name fall then "Fall"
  else "Unknown"

/-- The columns of the sampled table that the clustering tab reads.  String cells
that can be missing in the CSV are `Option String`; the age is a possibly-NaN
float. -/
structure RawRow where
  birthPlace : Option String
  departurePlace : Option String
  arrivalMonth : Option String
  gender : Option String
  ageAtArrival : PyFloat
deriving DecidableEq

/-- Embedding of the `RouteCode` derivation (src/streamlit_app.py line 813):
`df_rel["BirthPlace"].astype(str) + " → " + df_rel["DeparturePlace"].astype(str)`. -/
def route_code (r : RawRow) : String :=
  optStr r.birthPlace ++ " → " ++ optStr r.departurePlace

/-- The four configured categorical feature columns of `df_rel`, as cells.  The
derived columns are produced by total functions, so only `Gender` can still be
missing; all four are kept as options because the null check inspects all four. -/
structure RelRow where
  routeCode : Option String
  season : Option String
  ageCategory : Option String
  gender : Option String
deriving DecidableEq

/-- Embedding of the derivation pass of the clustering tab
(src/streamlit_app.py lines 810-864): `RouteCode`, `Season` and `AgeCategory` are
computed by total functions, `Gender` is carried over from the input. -/
def toRel (r : RawRow) : RelRow :=
  ⟨some (route_code r), some (get_season r.arrivalMonth),
   some (get_age_cat r.ageAtArrival), r.gender⟩

/-- `cat_cols_rel` (src/streamlit_app.py line 868). -/
def cat_cols_rel : List String := ["RouteCode", "Season", "AgeCategory", "Gender"]

/-- Whether the named configured column is missing (NaN) in a row. -/
def isnaCol (r : RelRow) (col : String) : Bool :=
  if col = "RouteCode" then r.routeCode.isNone
  else if col = "Season" then r.season.isNone
  else if col = "AgeCategory" then r.ageCategory.isNone
  else if col = "Gender" then r.gender.isNone
  else false

/-- Embedding of `null_summary = df_rel[cat_cols_rel].isna().sum()`
(src/streamlit_app.py line 876): per-column null counts, keyed by column name. -/
def null_summary (rows : List RelRow) : List (String × Nat) :=
  cat_cols_rel.map (fun c => (c, (rows.filter (fun r => isnaCol r c)).length))

/-- `null_summary.sum()` (src/streamlit_app.py line 877). -/
def total_nulls (rows : List RelRow) : Nat :=
  ((null_summary rows).map Prod.snd).sum

/-- Embedding of the `kmodes_ready` flag (src/streamlit_app.py lines 869-882).
All four columns exist by construction of `RelRow`, so the `missing_cols` branch
cannot fire; the flag is the null check. -/
def kmodes_ready (rows : List RelRow) : Bool :=
  total_nulls rows == 0

/-- A row of the table actually handed to `KModes.fit_predict`, after
`astype(str)`. -/
structure StrRow where
  routeCode : String
  season : String
  ageCategory : String
  gender : String
deriving DecidableEq

/-- `astype(str)` over the four configured columns. -/
def toStrRow (r : RelRow) : StrRow :=
  ⟨optStr r.routeCode, optStr r.season, optStr r.ageCategory, optStr r.gender⟩

/-- Outcome of the clustering guard: either the run is skipped with the null
summary displayed, or `fit_predict` is invoked on the prepared table. -/
inductive KmOutcome : Type
  | skipped (nullSummary : List (String × Nat)) : KmOutcome
  | ran (input : List StrRow) : KmOutcome
deriving DecidableEq

/-- Embedding of the guarded clustering step of src/streamlit_app.py lines
871-897: warn and skip when a configured column contains a null, otherwise run
KModes on `df_rel[cat_cols_rel].astype(str)`. -/
def cluster_step_app (rows : List RelRow) : KmOutcome :=
  if kmodes_ready rows then .ran (rows.map toStrRow) else .skipped (null_summary rows)

/-- Embedding of `df_rel[cat_cols_rel].dropna()` (src/streamlit.py line 454):
rows with a missing value in any configured column are removed. -/
def dropna (rows : List RelRow) : List RelRow :=
  rows.filter (fun r =>
    !(isnaCol r "RouteCode" || isnaCol r "Season" || isnaCol r "AgeCategory" ||
      isnaCol r "Gender"))

/-- `df_km_rel = df_rel[cat_cols_rel].dropna().astype(str)` (src/streamlit.py
line 454). -/
def df_km_rel_py (rows : List RelRow) : List StrRow :=
  (dropna rows).map toStrRow

/-- Embedding of the clustering step of src/streamlit.py lines 453-459: there is
no guard; `fit_predict` is always invoked on the dropna-ed table. -/
def cluster_step_py (rows : List RelRow) : KmOutcome :=
  .ran (df_km_rel_py rows)

/- ### Cluster profiles and the cross-tabulation -/

/-- The configured feature columns, as a finite enumeration. -/
inductive Feat : Type
  | route | season | ageCat | gender
deriving DecidableEq

/-- Column name of a feature. -/
def Feat.colName : Feat → String
  | .route => "RouteCode"
  | .season => "Season"
  | .ageCat => "AgeCategory"
  | .gender => "Gender"

/-- `cat_cols_rel` in the order the source lists it. -/
def feat_cols : List Feat := [.route, .season, .ageCat, .gender]

/-- A row of `df_km_rel` after `df_km_rel["Cluster"] = clusters_rel`
(src/streamlit_app.py lines 887-898): four string features plus the cluster
label assigned by `fit_predict`. -/
structure KRow where
  routeCode : String
  season : String
  ageCategory : String
  gender : String
  cluster : Nat
deriving DecidableEq

/-- Value of a feature column in a clustered row. -/
def KRow.val (r : KRow) : Feat → String
  | .route => r.routeCode
  | .season => r.season
  | .ageCat => r.ageCategory
  | .gender => r.gender

/-- The largest number of occurrences any value has in the column. -/
def max_count (l : List String) : Nat :=
  (l.map (fun v => l.count v)).foldr max 0

/-- Model of pandas `Series.mode()`: the distinct values of maximal frequency,
returned in ascending (lexicographic) order. -/
def series_mode (l : List String) : List String :=
  (sortByB strLeB l.dedup).filter (fun v => l.count v == max_count l)

/-- Model of `.mode()[0]` (src/streamlit_app.py line 904, src/streamlit.py line
465): the first entry of the sorted mode list. -/
def mode0 (l : List String) : String := (series_mode l).headD ""

/-- The tie-break the specification asserts instead: the first value in input
order among those of maximal frequency.  Stated only to be compared against
`mode0`. -/
def first_mode (l : List String) : String :=
  (l.filter (fun v => l.count v == max_count l)).headD ""

/-- The rows of one cluster: `df_km_rel.loc[df_km_rel["Cluster"] == cluster]`. -/
def cluster_rows (rows : List KRow) (c : Nat) : List KRow :=
  rows.filter (fun r => r.cluster == c)

/-- One feature column restricted to one cluster, in input order. -/
def feature_column (rows : List KRow) (c : Nat) (f : Feat) : List String :=
  (cluster_rows rows c).map (fun r => r.val f)

/-- Embedding of the profile computation (src/streamlit_app.py lines 901-907):
for each cluster and feature column, `.mode()[0]` of that column restricted to
the cluster. -/
def cluster_profile (rows : List KRow) (c : Nat) (f : Feat) : String :=
  mode0 (feature_column rows c f)

/-- Ascending order on (value, cluster) group keys, as `groupby` sorts them. -/
def pairLeB (p q : String × Nat) : Bool :=
  if p.1 = q.1 then p.2.ble q.2 else strLeB p.1 q.1

/-- The distinct (value-of-chosen-column, cluster) pairs that occur, in groupby
key order. -/
def heat_pairs (rows : List KRow) (x : Feat) : List (String × Nat) :=
  sortByB pairLeB ((rows.map (fun r => (r.val x, r.cluster))).dedup)

/-- Number of rows with the given value of the chosen column and cluster label. -/
def pair_count (rows : List KRow) (x : Feat) (v : String) (c : Nat) : Nat :=
  (rows.filter (fun r => r.val x == v && r.cluster == c)).length

/-- `", ".join(...)`. -/
def joinComma : List String → String
  | [] => ""
  | [s] => s
  | s :: t => s ++ ", " ++ joinComma t

/-- The tooltip string of one contingency row (src/streamlit_app.py lines
928-932): `"k: v"` for every configured feature other than the chosen column, in
profile insertion order, joined by `", "`. -/
def profile_str (x : Feat) (profiles : Nat → Feat → String) (c : Nat) : String :=
  joinComma ((feat_cols.filter (fun f => f != x)).map
    (fun f => f.colName ++ ": " ++ profiles c f))

/-- Embedding of the contingency table built by `plot_heatmap_with_profile`
(src/streamlit_app.py lines 910-933): `df.groupby([x_col, "Cluster"]).size()`
keeps only occurring key pairs, each annotated with its count and the profile
string of its cluster. -/
def heat_data (rows : List KRow) (x : Feat) (profiles : Nat → Feat → String) :
    List (String × Nat × Nat × String) :=
  (heat_pairs rows x).map
    (fun p => (p.1, p.2, pair_count rows x p.1 p.2, profile_str x profiles p.2))

/- ### BinnedSampler and the app's random-state flow -/

/-- A sampled-table row: a row identity and its `Bin` value. -/
structure SRow where
  idx : Nat
  bin : Nat
deriving DecidableEq

/-- One `groupby("Bin")` group: the rows of the bin, in input order. -/
def bin_group (df : List SRow) (b : Nat) : List SRow :=
  df.filter (fun r => r.bin == b)

/-- The distinct `Bin` keys in ascending order, as `groupby` iterates them. -/
def bin_keys (df : List SRow) : List Nat :=
  sortByB Nat.ble ((df.map SRow.bin).dedup)

/-- The contribution of one bin (src/streamlit_app.py lines 155-159): the bin's
group is sampled down to `sample_per_bin` rows when it is at least that large,
and kept whole otherwise.  The `sampler` argument models the library draw
`group.sample(n=sample_per_bin, replace=False)`, which in the source reads the
process-wide NumPy generator — the Python function has no seed parameter. -/
def sample_group (sampler : List SRow → Nat → List SRow) (df : List SRow)
    (sample_per_bin : Nat) (b : Nat) : List SRow :=
  if sample_per_bin ≤ (bin_group df b).length then sampler (bin_group df b) sample_per_bin
  else bin_group df b

/-- Embedding of `get_sample` (src/streamlit_app.py lines 138-161, identical in
src/streamlit.py lines 56-65): per-bin sampling followed by `pd.concat`. -/
def get_sample (sampler : List SRow → Nat → List SRow) (df : List SRow)
    (sample_per_bin : Nat) : List SRow :=
  concat_groups ((bin_keys df).map (sample_group sampler df sample_per_bin))

/-- The contract of a without-replacement draw: when asked for `n ≤ |g|` rows it
returns exactly `n` of them, a sub-multiset of the group. -/
def SamplerOK (sampler : List SRow → Nat → List SRow) : Prop :=
  ∀ g n, n ≤ g.length → (sampler g n).length = n ∧ (sampler g n).Subperm g

/-- Number of rows of a bin present in a table. -/
def count_bin (l : List SRow) (b : Nat) : Nat :=
  (l.filter (fun r => r.bin == b)).length

/-- The simplest draw satisfying `SamplerOK`: take the first `n` rows. -/
def take_sampler (g : List SRow) (n : Nat) : List SRow := g.take n

/-- Modelled from the library's documented behaviour: `DataFrame.sample` without
`random_state` draws from the process-wide NumPy generator, so the rows it
returns are a function of that ambient state.  Modelled as a state-indexed
rotation followed by a take — for each state a valid without-replacement draw. -/
def np_sample (state : Nat) (g : List SRow) (n : Nat) : List SRow :=
  (g.rotateLeft (state % (g.length + 1))).take n

/-- The observable outputs of one top-to-bottom run of src/streamlit_app.py that
the determinism claim speaks about. -/
structure AppRun where
  sampled : List SRow
  npState : Nat
  kmRandomState : Nat
deriving DecidableEq

/-- Embedding of the script's straight-line order (src/streamlit_app.py):
line 263 draws `sampled_df = get_sample(df, sample_per_bin=60)` from the ambient
process-wide generator state; lines 282-283 then execute
`np.random.seed(seed); random.seed(seed)`, overwriting the process-wide state
with one derived from the sidebar seed; lines 889-895 construct
`KModes(..., random_state=42)` with a hard-coded explicit seed. -/
def app_run (ambient : Nat) (seed : Nat) (df : List SRow) : AppRun :=
  let sampled := get_sample (np_sample ambient) df 60
  ⟨sampled, seed, 42⟩

/- ### Concrete tables used by witnesses and counterexamples -/

/-- A 20-row table with 12 rows in bin 1 and 8 rows in bin 2. -/
def df20 : List SRow :=
  (List.range 12).map (fun i => ⟨i, 1⟩) ++ (List.range 8).map (fun i => ⟨12 + i, 2⟩)

/-- A 61-row table in a single bin, large enough that the app's fixed
`sample_per_bin=60` actually samples. -/
def df61 : List SRow := (List.range 61).map (fun i => ⟨i, 1⟩)

/-- A fully populated feature row. -/
def relRowOk : RelRow :=
  ⟨some "England → Liverpool", some "Spring", some "Adult", some "M"⟩

/-- A feature row with a missing `Gender` cell. -/
def relRowMiss : RelRow :=
  ⟨some "Ireland → Queenstown", some "Winter", some "Child", none⟩

/-- A clustered row whose route value `"b"` comes first in input order. -/
def kRowB : KRow := ⟨"b", "Winter", "Adult", "M", 0⟩

/-- A clustered row whose route value `"a"` is lexicographically smaller. -/
def kRowA : KRow := ⟨"a", "Winter", "Adult", "M", 0⟩

/-- A raw row whose only defect is a missing age. -/
def rawRowNaN : RawRow :=
  ⟨some "England", some "Liverpool", some "March", some "M", PyFloat.nan⟩

/- ### Theorems -/

theorem perm_insertByB {α : Type} (le : α → α → Bool) (x : α) (l : List α) :
    Perm (insertByB le x l) (x :: l) := by
  induction l with
  | nil => simp [insertByB]
  | cons y t ih =>
    simp only [insertByB]
    split
    · exact List.Perm.refl _
    · exact (List.Perm.cons y ih).trans (List.Perm.swap x y t)

theorem perm_sortByB {α : Type} (le : α → α → Bool) (l : List α) :
    Perm (sortByB le l) l := by
  induction l with
  | nil => exact List.Perm.refl _
  | cons x t ih =>
    exact (perm_insertByB le x (sortByB le t)).trans (List.Perm.cons x ih)

theorem mem_sortByB {α : Type} (le : α → α → Bool) (l : List α) (a : α) :
    a ∈ sortByB le l ↔ a ∈ l :=
  (perm_sortByB le l).mem_iff

theorem nodup_sortByB {α : Type} (le : α → α → Bool) (l : List α) (h : l.Nodup) :
    (sortByB le l).Nodup :=
  ((perm_sortByB le l).nodup_iff).mpr h

theorem pairwise_insertByB {α : Type} {le : α → α → Bool}
    (htot : ∀ a b, le a b = true ∨ le b a = true)
    (htrans : ∀ a b c, le a b = true → le b c = true → le a c = true)
    (x : α) {l : List α} (h : l.Pairwise (fun a b => le a b = true)) :
    (insertByB le x l).Pairwise (fun a b => le a b = true) := by
  induction l with
  | nil => simp [insertByB]
  | cons y t ih =>
    rw [List.pairwise_cons] at h
    obtain ⟨hy, ht⟩ := h
    simp only [insertByB]
    split
    · rename_i hxy
      rw [List.pairwise_cons]
      refine ⟨?_, ?_⟩
      · intro z hz
        rw [List.mem_cons] at hz
        rcases hz with hz | hz
        · exact hz ▸ hxy
        · exact htrans x y z hxy (hy z hz)
      · rw [List.pairwise_cons]
        exact ⟨hy, ht⟩
    · rename_i hxy
      have hyx : le y x = true := by
        rcases htot x y with h1 | h1
        · exact absurd h1 hxy
        · exact h1
      rw [List.pairwise_cons]
      refine ⟨?_, ih ht⟩
      intro z hz
      have hz' : z ∈ x :: t := (perm_insertByB le x t).mem_iff.mp hz
      rw [List.mem_cons] at hz'
      rcases hz' with hz' | hz'
      · exact hz' ▸ hyx
      · exact hy z hz'

theorem pairwise_sortByB {α : Type} {le : α → α → Bool}
    (htot : ∀ a b, le a b = true ∨ le b a = true)
    (htrans : ∀ a b c, le a b = true → le b c = true → le a c = true)
    (l : List α) :
    (sortByB le l).Pairwise (fun a b => le a b = true) := by
  induction l with
  | nil => simp [sortByB]
  | cons x t ih => exact pairwise_insertByB htot htrans x ih

theorem filter_len_zero {α : Type} (p : α → Bool) (l : List α)
    (h : ∀ a ∈ l, p a = false) : (l.filter p).length = 0 := by
  induction l with
  | nil => rfl
  | cons a t ih =>
    have ha := h a (List.mem_cons_self a t)
    rw [List.filter_cons, ha]
    simp only [Bool.false_eq_true, if_false]
    exact ih (fun b hb => h b (List.mem_cons_of_mem a hb))

theorem charListLe_refl (l : List Char) : charListLe l l = true := by
  induction l with
  | nil => rfl
  | cons a t ih => simp [charListLe, lt_self_iff_false, ih]

theorem charListLe_total (x y : List Char) :
    charListLe x y = true ∨ charListLe y x = true := by
  induction x generalizing y with
  | nil => left; rfl
  | cons a as ih =>
    cases y with
    | nil => right; rfl
    | cons b bs =>
      rcases Nat.lt_trichotomy a.toNat b.toNat with h | h | h
      · left; simp [charListLe, h]
      · rcases ih bs with h2 | h2
        · left; simp [charListLe, h, lt_self_iff_false, h2]
        · right; simp [charListLe, h.symm, lt_self_iff_false, h2]
      · right; simp [charListLe, h]

theorem charListLe_trans (x y z : List Char) (h1 : charListLe x y = true)
    (h2 : charListLe y z = true) : charListLe x z = true := by
  induction x generalizing y z with
  | nil => rfl
  | cons a as ih =>
    cases y with
    | nil => simp [charListLe] at h1
    | cons b bs =>
      cases z with
      | nil => simp [charListLe] at h2
      | cons c cs =>
        simp only [charListLe] at h1 h2 ⊢
        by_cases hab : a.toNat < b.toNat
        · by_cases hbc : b.toNat < c.toNat
          · simp [Nat.lt_trans hab hbc]
          · by_cases hcb : c.toNat < b.toNat
            · simp [hbc, hcb] at h2
            · have hac : a.toNat < c.toNat := by omega
              simp [hac]
        · by_cases hba : b.toNat < a.toNat
          · simp [hab, hba] at h1
          · rw [if_neg hab, if_neg hba] at h1
            by_cases hbc : b.toNat < c.toNat
            · have hac : a.toNat < c.toNat := by omega
              simp [hac]
            · by_cases hcb : c.toNat < b.toNat
              · simp [hbc, hcb] at h2
              · rw [if_neg hbc, if_neg hcb] at h2
                have hac1 : ¬ a.toNat < c.toNat := by omega
                have hac2 : ¬ c.toNat < a.toNat := by omega
                rw [if_neg hac1, if_neg hac2]
                exact ih bs cs h1 h2

theorem strLeB_refl (a : String) : strLeB a a = true := charListLe_refl a.data

theorem strLeB_total (a b : String) : strLeB a b = true ∨ strLeB b a = true :=
  charListLe_total a.data b.data

theorem strLeB_trans (a b c : String) (h1 : strLeB a b = true)
    (h2 : strLeB b c = true) : strLeB a c = true :=
  charListLe_trans a.data b.data c.data h1 h2

theorem le_foldr_max (ns : List Nat) (n : Nat) (h : n ∈ ns) :
    n ≤ ns.foldr max 0 := by
  induction ns with
  | nil => cases h
  | cons m t ih =>
    rw [List.foldr_cons]
    rcases List.mem_cons.mp h with rfl | h2
    · exact Nat.le_max_left _ _
    · exact Nat.le_trans (ih h2) (Nat.le_max_right _ _)

theorem foldr_max_mem (ns : List Nat) (h : ns ≠ []) : ns.foldr max 0 ∈ ns := by
  induction ns with
  | nil => exact absurd rfl h
  | cons m t ih =>
    rw [List.foldr_cons]
    cases t with
    | nil => simp
    | cons m2 t2 =>
      rcases max_choice m ((m2 :: t2).foldr max 0) with heq | heq
      · rw [heq]; exact List.mem_cons_self _ _
      · rw [heq]; exact List.mem_cons_of_mem _ (ih (by simp))

/-- C8: `get_age_cat` maps a numeric age to Child when age<15, YoungAdult when
15≤age<24, Adult when 24≤age<55, and Senior when age≥55, with the boundaries
half-open exactly as stated. -/
theorem c8_age_boundaries (q : ℚ) :
    (q < 15 → get_age_cat (.num q) = "Child") ∧
    (15 ≤ q → q < 24 → get_age_cat (.num q) = "YoungAdult") ∧
    (24 ≤ q → q < 55 → get_age_cat (.num q) = "Adult") ∧
    (55 ≤ q → get_age_cat (.num q) = "Senior") := by
  simp only [get_age_cat, pfLtB, decide_eq_true_eq]
  refine ⟨?_, ?_, ?_, ?_⟩
  · intro h; rw [if_pos h]
  · intro h1 h2; rw [if_neg (by linarith), if_pos h2]
  · intro h1 h2; rw [if_neg (by linarith), if_neg (by linarith), if_pos h2]
  · intro h1; rw [if_neg (by linarith), if_neg (by linarith), if_neg (by linarith)]

/-- Witness for C8: the six boundary ages of the claim. -/
theorem c8_age_boundaries_witness :
    get_age_cat (.num 14) = "Child" ∧ get_age_cat (.num 15) = "YoungAdult" ∧
    get_age_cat (.num 23) = "YoungAdult" ∧ get_age_cat (.num 24) = "Adult" ∧
    get_age_cat (.num 54) = "Adult" ∧ get_age_cat (.num 55) = "Senior" :=
  ⟨(c8_age_boundaries 14).1 (by norm_num),
   (c8_age_boundaries 15).2.1 (by norm_num) (by norm_num),
   (c8_age_boundaries 23).2.1 (by norm_num) (by norm_num),
   (c8_age_boundaries 24).2.2.1 (by norm_num) (by norm_num),
   (c8_age_boundaries 54).2.2.1 (by norm_num) (by norm_num),
   (c8_age_boundaries 55).2.2.2 (by norm_num)⟩

/-- C2, counterexample: with the same sidebar seed (42) and the same input
table, two runs that start from different ambient process-wide generator states
produce different sampled rows, because the sample is drawn (line 263) before
`np.random.seed(seed)` runs (line 282) and `get_sample` takes no seed. -/
theorem c2_seed_counterexample :
    (app_run 0 42 df61).sampled ≠ (app_run 1 42 df61).sampled := by decide

/-- C2, amended: the sampled rows are a function of the ambient process-wide
generator state and do not depend on the sidebar seed at all; the app does set
the process-wide state from the seed (after sampling); and the only explicit
generator input is the hard-coded `random_state=42` handed to KModes, uniform in
the user seed. -/
theorem c2_randomness_flow (ambient seed seed2 : Nat) (df : List SRow) :
    (app_run ambient seed df).sampled = (app_run ambient seed2 df).sampled ∧
    (app_run ambient seed df).npState = seed ∧
    (app_run ambient seed df).kmRandomState = 42 :=
  ⟨rfl, rfl, rfl⟩

/-- C3, counterexample: in the src/streamlit.py revision a row with a missing
`Gender` cell is silently removed by `dropna()` and clustering still runs on the
remaining rows — no error outcome exists on this path. -/
theorem c3_dropna_counterexample :
    cluster_step_py [relRowOk, relRowMiss] = .ran [toStrRow relRowOk] ∧
    (df_km_rel_py [relRowOk, relRowMiss]).length <
      ([relRowOk, relRowMiss] : List RelRow).length := by
  exact ⟨by decide, by decide⟩

/-- C3, amended: in the src/streamlit_app.py revision, any input containing a
missing value in a configured categorical column makes the clustering step skip
with the per-column null summary displayed (a named, enumerable report); the
summary names every configured column with its exact null count. -/
theorem c3_null_guard_amended (rows : List RelRow)
    (h : ∃ r ∈ rows, ∃ c ∈ cat_cols_rel, isnaCol r c = true) :
    cluster_step_app rows = .skipped (null_summary rows) ∧
    0 < total_nulls rows ∧
    (∀ c ∈ cat_cols_rel,
      (c, (rows.filter (fun r => isnaCol r c)).length) ∈ null_summary rows) := by
  obtain ⟨r, hr, c, hc, hna⟩ := h
  have hpos : 0 < (rows.filter (fun r => isnaCol r c)).length :=
    List.length_pos.mpr (List.ne_nil_of_mem (List.mem_filter.mpr ⟨hr, hna⟩))
  have hmem : (rows.filter (fun r => isnaCol r c)).length ∈
      ((null_summary rows).map Prod.snd) := by
    refine List.mem_map.mpr ⟨(c, (rows.filter (fun r => isnaCol r c)).length), ?_, rfl⟩
    exact List.mem_map.mpr ⟨c, hc, rfl⟩
  have htot : 0 < total_nulls rows :=
    Nat.lt_of_lt_of_le hpos (List.single_le_sum (fun x _ => Nat.zero_le x) _ hmem)
  have hready : kmodes_ready rows = false := by
    simp only [kmodes_ready, beq_eq_false_iff_ne, ne_eq]
    omega
  refine ⟨?_, htot, ?_⟩
  · simp [cluster_step_app, hready]
  · intro c2 hc2
    exact List.mem_map.mpr ⟨c2, hc2, rfl⟩

/-- Witness for the amended C3: a table whose second row misses `Gender` is
skipped with a positive null count. -/
theorem c3_null_guard_amended_witness :
    cluster_step_app [relRowOk, relRowMiss] =
      .skipped (null_summary [relRowOk, relRowMiss]) ∧
    0 < total_nulls [relRowOk, relRowMiss] := by
  have h := c3_null_guard_amended [relRowOk, relRowMiss]
    ⟨relRowMiss, by decide, "Gender", by decide, by decide⟩
  exact ⟨h.1, h.2.1⟩

/-- C10: a missing (NaN) age falls through every `<` comparison of `get_age_cat`
and is classified `"Senior"`; the derived `AgeCategory` cell is therefore a
non-missing string, so a table whose only defect is missing ages passes the
null check and clustering proceeds instead of reporting the rows as invalid. -/
theorem c10_nan_age_senior (raws : List RawRow)
    (h : ∀ r ∈ raws, r.gender.isSome = true) :
    get_age_cat PyFloat.nan = "Senior" ∧
    (∀ r ∈ raws, (toRel r).ageCategory = some (get_age_cat r.ageAtArrival)) ∧
    kmodes_ready (raws.map toRel) = true ∧
    cluster_step_app (raws.map toRel) = .ran ((raws.map toRel).map toStrRow) := by
  have hcols : ∀ c ∈ cat_cols_rel, ∀ r ∈ raws.map toRel, isnaCol r c = false := by
    intro c hc r hr
    obtain ⟨r0, hr0, rfl⟩ := List.mem_map.mp hr
    have hc4 : c = "RouteCode" ∨ c = "Season" ∨ c = "AgeCategory" ∨ c = "Gender" := by
      simpa [cat_cols_rel] using hc
    rcases hc4 with rfl | rfl | rfl | rfl
    · simp [isnaCol, toRel]
    · simp [isnaCol, toRel]
    · simp [isnaCol, toRel]
    · obtain ⟨g, hgg⟩ := Option.isSome_iff_exists.mp (h r0 hr0)
      simp [isnaCol, toRel, hgg]
  have hlen : ∀ c ∈ cat_cols_rel,
      ((raws.map toRel).filter (fun r => isnaCol r c)).length = 0 :=
    fun c hc => filter_len_zero _ _ (hcols c hc)
  have hzero : total_nulls (raws.map toRel) = 0 := by
    simp only [total_nulls, null_summary, List.map_map]
    rw [List.sum_eq_zero]
    intro x hx
    obtain ⟨c, hc, rfl⟩ := List.mem_map.mp hx
    exact hlen c hc
  have hready : kmodes_ready (raws.map toRel) = true := by
    simp [kmodes_ready, hzero]
  refine ⟨rfl, fun r _ => rfl, hready, ?_⟩
  simp [cluster_step_app, hready]

/-- Witness for C10: a single row whose age is NaN and whose gender is present
is accepted by the null check, with `AgeCategory` silently set to Senior. -/
theorem c10_nan_age_senior_witness :
    kmodes_ready ([rawRowNaN].map toRel) = true ∧
    (toRel rawRowNaN).ageCategory = some "Senior" := by
  have h := c10_nan_age_senior [rawRowNaN] (by decide)
  refine ⟨h.2.2.1, ?_⟩
  rw [h.2.1 rawRowNaN (List.mem_cons_self _ _)]
  rfl

theorem count_le_max_count (l : List String) (v : String) (hv : v ∈ l) :
    l.count v ≤ max_count l :=
  le_foldr_max _ _ (List.mem_map.mpr ⟨v, hv, rfl⟩)

theorem max_count_attained (l : List String) (h : l ≠ []) :
    ∃ v ∈ l, l.count v = max_count l := by
  have hmem : max_count l ∈ l.map (fun v => l.count v) :=
    foldr_max_mem _ (by simpa using h)
  obtain ⟨v, hv, hcv⟩ := List.mem_map.mp hmem
  exact ⟨v, hv, hcv⟩

theorem series_mode_sorted (l : List String) :
    (series_mode l).Pairwise (fun a b => strLeB a b = true) :=
  List.Pairwise.sublist (List.filter_sublist _)
    (pairwise_sortByB strLeB_total strLeB_trans _)

theorem mode0_spec (l : List String) (h : l ≠ []) :
    mode0 l ∈ l ∧ l.count (mode0 l) = max_count l ∧
    (∀ v ∈ l, l.count v = max_count l → strLeB (mode0 l) v = true) := by
  obtain ⟨w, hw, hcw⟩ := max_count_attained l h
  have hwmode : w ∈ series_mode l :=
    List.mem_filter.mpr
      ⟨(mem_sortByB _ _ _).mpr (List.mem_dedup.mpr hw), beq_iff_eq.mpr hcw⟩
  cases hsm : series_mode l with
  | nil => rw [hsm] at hwmode; cases hwmode
  | cons m t =>
    have hm : mode0 l = m := by simp [mode0, hsm]
    have hmmem : m ∈ series_mode l := by
      rw [hsm]; exact List.mem_cons_self _ _
    have hmf := List.mem_filter.mp hmmem
    have hml : m ∈ l := List.mem_dedup.mp ((mem_sortByB _ _ _).mp hmf.1)
    have hmc : l.count m = max_count l := beq_iff_eq.mp hmf.2
    refine ⟨hm ▸ hml, hm ▸ hmc, ?_⟩
    intro v hv hcv
    have hvmode : v ∈ series_mode l :=
      List.mem_filter.mpr
        ⟨(mem_sortByB _ _ _).mpr (List.mem_dedup.mpr hv), beq_iff_eq.mpr hcv⟩
    rw [hm]
    rw [hsm] at hvmode
    rcases List.mem_cons.mp hvmode with rfl | hvt
    · exact strLeB_refl v
    · have hp := series_mode_sorted l
      rw [hsm, List.pairwise_cons] at hp
      exact hp.1 v hvt

/-- C4, counterexample: in a cluster whose route column is `["b", "a"]` (a tie),
the code's `.mode()[0]` yields the lexicographically smallest value `"a"`, while
the first-encountered-in-input-order rule the claim states would yield `"b"`. -/
theorem c4_tiebreak_counterexample :
    cluster_profile [kRowB, kRowA] 0 .route = "a" ∧
    first_mode (feature_column [kRowB, kRowA] 0 .route) = "b" ∧
    ("a" : String) ≠ "b" :=
  ⟨by decide, by decide, by decide⟩

/-- C4, amended: each profile entry is a most frequent category value of its
cluster's feature column, and when several values are tied for most frequent the
lexicographically smallest (pandas sorts the modes ascending and `[0]` takes the
head) is chosen — not the first encountered in input order. -/
theorem c4_mode_profile_amended (rows : List KRow) (c : Nat) (f : Feat)
    (h : cluster_rows rows c ≠ []) :
    cluster_profile rows c f ∈ feature_column rows c f ∧
    (∀ v ∈ feature_column rows c f,
      (feature_column rows c f).count v ≤
        (feature_column rows c f).count (cluster_profile rows c f)) ∧
    (∀ v ∈ feature_column rows c f,
      (feature_column rows c f).count v =
          (feature_column rows c f).count (cluster_profile rows c f) →
        strLeB (cluster_profile rows c f) v = true) := by
  have hne : feature_column rows c f ≠ [] := by
    simpa [feature_column] using h
  obtain ⟨h1, h2, h3⟩ := mode0_spec (feature_column rows c f) hne
  refine ⟨h1, ?_, ?_⟩
  · intro v hv
    show (feature_column rows c f).count v ≤
      (feature_column rows c f).count (mode0 (feature_column rows c f))
    rw [h2]
    exact count_le_max_count _ _ hv
  · intro v hv hcv
    exact h3 v hv (hcv.trans h2)

/-- Witness for the amended C4: the profile of the two-row cluster is one of its
column values. -/
theorem c4_mode_profile_amended_witness :
    cluster_profile [kRowB, kRowA] 0 .route ∈
      feature_column [kRowB, kRowA] 0 .route :=
  (c4_mode_profile_amended [kRowB, kRowA] 0 .route (by decide)).1

theorem mem_bin_group {df : List SRow} {b : Nat} {r : SRow} :
    r ∈ bin_group df b ↔ r ∈ df ∧ r.bin = b := by
  simp [bin_group, List.mem_filter]

theorem count_bin_append (x y : List SRow) (b : Nat) :
    count_bin (x ++ y) b = count_bin x b + count_bin y b := by
  simp [count_bin, List.filter_append]

theorem sample_group_sub (sampler : List SRow → Nat → List SRow)
    (hs : SamplerOK sampler) (df : List SRow) (n b : Nat) :
    (sample_group sampler df n b).Subperm (bin_group df b) := by
  unfold sample_group
  split
  · rename_i hle
    exact (hs _ n hle).2
  · exact List.Subperm.refl _

theorem sample_group_bin (sampler : List SRow → Nat → List SRow)
    (hs : SamplerOK sampler) (df : List SRow) (n b : Nat) :
    ∀ r ∈ sample_group sampler df n b, r.bin = b := by
  intro r hr
  have h2 : r ∈ bin_group df b := (sample_group_sub sampler hs df n b).subset hr
  exact (mem_bin_group.mp h2).2

theorem sample_group_len (sampler : List SRow → Nat → List SRow)
    (hs : SamplerOK sampler) (df : List SRow) (n b : Nat) :
    (sample_group sampler df n b).length = min (count_bin df b) n := by
  have hcb : count_bin df b = (bin_group df b).length := rfl
  unfold sample_group
  split
  · rename_i hle
    rw [(hs _ n hle).1]
    omega
  · rename_i hlt
    show (bin_group df b).length = _
    omega

theorem bin_of_mem_concat (sampler : List SRow → Nat → List SRow)
    (hs : SamplerOK sampler) (df : List SRow) (n : Nat) (bs : List Nat) (x : SRow)
    (hx : x ∈ concat_groups (bs.map (sample_group sampler df n))) : x.bin ∈ bs := by
  induction bs with
  | nil => simp [concat_groups] at hx
  | cons b1 t ih =>
    rw [List.map_cons, concat_groups] at hx
    rcases List.mem_append.mp hx with hx | hx
    · exact List.mem_cons.mpr (Or.inl (sample_group_bin sampler hs df n b1 x hx))
    · exact List.mem_cons_of_mem _ (ih hx)

theorem count_bin_sample (sampler : List SRow → Nat → List SRow)
    (hs : SamplerOK sampler) (df : List SRow) (n : Nat) (bs : List Nat)
    (hnd : bs.Nodup) (b : Nat) :
    count_bin (concat_groups (bs.map (sample_group sampler df n))) b =
      if b ∈ bs then (sample_group sampler df n b).length else 0 := by
  induction bs with
  | nil => simp [concat_groups, count_bin]
  | cons b1 t ih =>
    rw [List.nodup_cons] at hnd
    obtain ⟨hb1, hndt⟩ := hnd
    rw [List.map_cons, concat_groups, count_bin_append]
    have hone : count_bin (sample_group sampler df n b1) b =
        if b1 = b then (sample_group sampler df n b1).length else 0 := by
      by_cases hbb : b1 = b
      · subst hbb
        rw [if_pos rfl]
        unfold count_bin
        congr 1
        apply List.filter_eq_self.mpr
        intro a ha
        exact beq_iff_eq.mpr (sample_group_bin sampler hs df n b1 a ha)
      · rw [if_neg hbb]
        unfold count_bin
        have hnil : (sample_group sampler df n b1).filter (fun r => r.bin == b) = [] := by
          apply List.filter_eq_nil_iff.mpr
          intro a ha hab
          exact hbb ((sample_group_bin sampler hs df n b1 a ha) ▸ beq_iff_eq.mp hab)
        rw [hnil]
        rfl
    rw [hone, ih hndt]
    by_cases hbb : b1 = b
    · subst hbb
      rw [if_pos rfl, if_pos (List.mem_cons_self _ _), if_neg hb1]
      omega
    · rw [if_neg hbb]
      by_cases hbt : b ∈ t
      · rw [if_pos hbt, if_pos (List.mem_cons_of_mem _ hbt)]
        simp
      · have hnotc : b ∉ b1 :: t := by
          rw [List.mem_cons]
          rintro (rfl | hc)
          · exact hbb rfl
          · exact hbt hc
        rw [if_neg hbt, if_neg hnotc]

theorem count_le_sample (sampler : List SRow → Nat → List SRow)
    (hs : SamplerOK sampler) (df : List SRow) (n : Nat) (bs : List Nat)
    (hnd : bs.Nodup) (x : SRow) :
    (concat_groups (bs.map (sample_group sampler df n))).count x ≤ df.count x := by
  induction bs with
  | nil => simp [concat_groups]
  | cons b1 t ih =>
    rw [List.nodup_cons] at hnd
    obtain ⟨hb1, hndt⟩ := hnd
    rw [List.map_cons, concat_groups, List.count_append]
    by_cases hxb : x.bin = b1
    · have hrest : x ∉ concat_groups (t.map (sample_group sampler df n)) := by
        intro hx
        exact hb1 (hxb ▸ bin_of_mem_concat sampler hs df n t x hx)
      rw [List.count_eq_zero.mpr hrest]
      have h1 : (sample_group sampler df n b1).count x ≤ (bin_group df b1).count x :=
        (sample_group_sub sampler hs df n b1).count_le x
      have h2 : (bin_group df b1).count x ≤ df.count x :=
        (List.filter_sublist df).count_le x
      omega
    · have hx1 : x ∉ sample_group sampler df n b1 := fun hx =>
        hxb (sample_group_bin sampler hs df n b1 x hx)
      rw [List.count_eq_zero.mpr hx1]
      simpa using ih hndt

theorem bin_keys_nodup (df : List SRow) : (bin_keys df).Nodup :=
  nodup_sortByB _ _ (List.nodup_dedup _)

theorem mem_bin_keys {df : List SRow} {b : Nat} :
    b ∈ bin_keys df ↔ b ∈ df.map SRow.bin := by
  rw [bin_keys, mem_sortByB, List.mem_dedup]

/-- C1: for any valid without-replacement draw, `get_sample` returns a
sub-multiset of the input (no duplication, no synthesized rows), each bin value
present in the input contributes exactly min(inputCountForBin, N) rows, and no
bin value absent from the input occurs in the output. -/
theorem c1_binned_sampler (sampler : List SRow → Nat → List SRow) (df : List SRow)
    (n : Nat) (hs : SamplerOK sampler) :
    (get_sample sampler df n).Subperm df ∧
    (∀ b ∈ df.map SRow.bin,
      count_bin (get_sample sampler df n) b = min (count_bin df b) n) ∧
    (∀ b, b ∉ df.map SRow.bin → count_bin (get_sample sampler df n) b = 0) := by
  have hget : get_sample sampler df n =
      concat_groups ((bin_keys df).map (sample_group sampler df n)) := rfl
  refine ⟨?_, ?_, ?_⟩
  · rw [List.subperm_ext_iff]
    intro x _
    rw [hget]
    exact count_le_sample sampler hs df n (bin_keys df) (bin_keys_nodup df) x
  · intro b hb
    rw [hget, count_bin_sample sampler hs df n (bin_keys df) (bin_keys_nodup df) b,
      if_pos (mem_bin_keys.mpr hb)]
    exact sample_group_len sampler hs df n b
  · intro b hb
    rw [hget, count_bin_sample sampler hs df n (bin_keys df) (bin_keys_nodup df) b,
      if_neg (fun hc => hb (mem_bin_keys.mp hc))]

theorem take_sampler_ok : SamplerOK take_sampler := by
  intro g n hle
  constructor
  · rw [take_sampler, List.length_take]
    omega
  · exact (List.take_sublist n g).subperm

/-- Witness for C1: the claim's end-to-end scenario — 20 rows, 12 in bin 1 and
8 in bin 2, cap N=10: the output is a sub-multiset of the input with 10 rows of
bin 1, all 8 rows of bin 2, 18 in total. -/
theorem c1_binned_sampler_witness :
    (get_sample take_sampler df20 10).Subperm df20 ∧
    count_bin (get_sample take_sampler df20 10) 1 = 10 ∧
    count_bin (get_sample take_sampler df20 10) 2 = 8 ∧
    (get_sample take_sampler df20 10).length = 18 := by
  have h := c1_binned_sampler take_sampler df20 10 take_sampler_ok
  exact ⟨h.1, by decide, by decide, by decide⟩

theorem containsSeq_map (f : Char → Char) (sep l : List Char)
    (h : containsSeq sep l = true) : containsSeq (sep.map f) (l.map f) = true := by
  induction l with
  | nil =>
    rw [containsSeq] at h
    rw [List.isEmpty_iff.mp h]
    rfl
  | cons c t ih =>
    rw [containsSeq, Bool.or_eq_true] at h
    rw [List.map_cons, containsSeq, Bool.or_eq_true]
    rcases h with hpre | hrest
    · left
      obtain ⟨u, hu⟩ := List.isPrefixOf_iff_prefix.mp hpre
      apply List.isPrefixOf_iff_prefix.mpr
      refine ⟨u.map f, ?_⟩
      rw [← List.map_append, hu, List.map_cons]
    · right
      exact ih hrest

theorem splitFuel_no_occurrence (sep : List Char) :
    ∀ (l : List Char) (fuel : Nat) (acc : List Char),
      containsSeq sep l = false →
      splitFuel sep fuel acc l = [acc.reverse ++ l] := by
  intro l
  induction l with
  | nil =>
    intro fuel acc _
    cases fuel <;> simp [splitFuel]
  | cons c t ih =>
    intro fuel acc h
    rw [containsSeq, Bool.or_eq_false_iff] at h
    obtain ⟨hpre, hrest⟩ := h
    cases fuel with
    | zero => simp [splitFuel]
    | succ fuel =>
      simp only [splitFuel]
      rw [if_neg (by simp [hpre])]
      rw [ih fuel (c :: acc) hrest]
      simp

theorem splitSeq_no_occurrence (sep l : List Char)
    (h : containsSeq sep l = false) : splitSeq sep l = [l] := by
  rw [splitSeq, splitFuel_no_occurrence sep l l.length [] h]
  rfl

theorem containsSeq_infix_iff (sep l : List Char) :
    containsSeq sep l = true ↔ sep <:+: l := by
  induction l with
  | nil =>
    rw [containsSeq]
    constructor
    · intro h
      have hsep0 : sep = [] := List.isEmpty_iff.mp h
      subst hsep0
      exact ⟨[], [], rfl⟩
    · intro h
      obtain ⟨s, t, hst⟩ := h
      obtain ⟨hs, _⟩ := List.append_eq_nil.mp hst
      obtain ⟨_, hsep0⟩ := List.append_eq_nil.mp hs
      subst hsep0
      rfl
  | cons c t ih =>
    rw [containsSeq, Bool.or_eq_true, ih]
    constructor
    · rintro (hpre | hinf)
      · have hp2 := List.isPrefixOf_iff_prefix.mp hpre
        exact hp2.isInfix
      · obtain ⟨s, u, hsu⟩ := hinf
        exact ⟨c :: s, u, by simp only [List.cons_append]; rw [hsu]⟩
    · intro hinf
      obtain ⟨s, u, hsu⟩ := hinf
      cases s with
      | nil =>
        left
        apply List.isPrefixOf_iff_prefix.mpr
        exact ⟨u, by simpa using hsu⟩
      | cons s0 srest =>
        right
        rw [List.cons_append, List.cons_append] at hsu
        injection hsu with h1 h2
        exact ⟨srest, u, h2⟩

theorem transit_false_no_occurrence (l : List Char)
    (h : transit_indicator l = false) : containsSeq sepAnd l = false := by
  cases hc : containsSeq sepAnd l with
  | false => rfl
  | true =>
    have h2 := containsSeq_map Char.toLower sepAnd l hc
    have h3 : sepAnd.map Char.toLower = sepAnd := by decide
    rw [h3] at h2
    rw [transit_indicator] at h
    rw [h] at h2
    exact Bool.noConfusion h2

/-- C5: `TransitIndicator` is set exactly when the raw string contains the
connective " and " case-insensitively; `DeparturePlace` always becomes the
trimmed final segment of the (case-sensitive) split on " and ", and a string
with no such occurrence passes through as the whole input trimmed; including the
two examples of the claim. -/
theorem c5_departure_normalization (l : List Char) :
    (transit_indicator l = true ↔ sepAnd <:+: l.map Char.toLower) ∧
    departure_place l = trimChars ((splitSeq sepAnd l).getLastD []) ∧
    (transit_indicator l = false → departure_place l = trimChars l) ∧
    (transit_indicator ("Liverpool and Queenstown".data) = true ∧
      departure_place ("Liverpool and Queenstown".data) = "Queenstown".data) ∧
    (transit_indicator ("Southampton".data) = false ∧
      departure_place ("Southampton".data) = "Southampton".data) := by
  refine ⟨containsSeq_infix_iff _ _, rfl, ?_, ⟨by decide, by decide⟩,
    ⟨by decide, by decide⟩⟩
  intro h
  rw [departure_place,
    splitSeq_no_occurrence sepAnd l (transit_false_no_occurrence l h)]
  rfl

/-- Witness for C5: a single-leg string is not flagged and passes through
trimmed. -/
theorem c5_departure_normalization_witness :
    transit_indicator ("Southampton".data) = false ∧
    departure_place ("Southampton".data) = trimChars ("Southampton".data) :=
  ⟨by decide, (c5_departure_normalization ("Southampton".data)).2.2.1 (by decide)⟩

theorem strip_vessel_id (l : List Char) (h : has_vessel_tok l = false) :
    strip_vessel l = l := by
  rw [strip_vessel]
  have hany := List.any_eq_false.mp (by rw [has_vessel_tok] at h; exact h)
  have hnone : vessel_tokens.findSome? (fun p =>
      if p.isPrefixOf l then
        match l.drop p.length with
        | c :: rest =>
          if c.isWhitespace then some ((c :: rest).dropWhile Char.isWhitespace)
          else none
        | [] => none
      else none) = none := by
    rw [List.findSome?_eq_none_iff]
    intro p hp
    have hap := hany p hp
    by_cases hpre : p.isPrefixOf l = true
    · rw [if_pos hpre]
      rw [hpre, Bool.true_and] at hap
      cases hd : l.drop p.length with
      | nil => rfl
      | cons c rest =>
        rw [hd] at hap
        simp only [Bool.not_eq_true] at hap
        simp [hap]
    · rw [if_neg hpre]
  rw [hnone]

/-- C9: ship-name normalisation strips one leading vessel-class token from
{RMS, SS, MV, HMS} followed by whitespace, then applies the alias table by
exact-match replacement only; a name with no class token is unchanged by the
strip and a name with no alias entry is unchanged by the replacement;
"RMS Titanic" maps to "Titanic" and "Augusta Victoria" to
"Kaiserin Augusta Victoria". -/
theorem c9_ship_normalization (l : List Char) :
    normalize_ship_name l = replace_ship (strip_vessel l) ∧
    (has_vessel_tok l = false → strip_vessel l = l) ∧
    (ship_mapping.lookup (strip_vessel l) = none →
      normalize_ship_name l = strip_vessel l) ∧
    normalize_ship_name ("RMS Titanic".data) = "Titanic".data ∧
    normalize_ship_name ("Augusta Victoria".data) =
      "Kaiserin Augusta Victoria".data := by
  refine ⟨rfl, strip_vessel_id l, ?_, by decide, by decide⟩
  intro h
  rw [normalize_ship_name, replace_ship, h]

/-- Witness for C9: a name with no class token and no alias entry passes
through unchanged. -/
theorem c9_ship_normalization_witness :
    normalize_ship_name ("Majestic".data) = "Majestic".data := by
  have h := c9_ship_normalization ("Majestic".data)
  rw [h.2.2.1 (by decide), h.2.1 (by decide)]

/-- C6: `parse_dates` tries the four configured formats in declared order and
returns the first successful parse (the `orElse` chain); it returns the missing
marker `none` exactly when no format matches, in which case the derived
`ArrivalYear` is missing as well — and it never raises, being total. -/
theorem c6_date_fallback (s : List Char) :
    parse_dates s =
      ((to_datetime "%d %b %Y" s).orElse fun _ =>
        ((to_datetime "%d-%b-%y" s).orElse fun _ =>
          ((to_datetime "%m/%d/%Y" s).orElse fun _ =>
            to_datetime "%m/%d/%y" s))) ∧
    (parse_dates s = none ↔ ∀ fmt ∈ date_formats, to_datetime fmt s = none) ∧
    (parse_dates s = none → arrival_year s = none) := by
  refine ⟨?_, ?_, ?_⟩
  · rw [parse_dates, date_formats]
    cases h1 : to_datetime "%d %b %Y" s with
    | some d => simp [List.findSome?, h1, Option.orElse]
    | none =>
      cases h2 : to_datetime "%d-%b-%y" s with
      | some d => simp [List.findSome?, h1, h2, Option.orElse]
      | none =>
        cases h3 : to_datetime "%m/%d/%Y" s with
        | some d => simp [List.findSome?, h1, h2, h3, Option.orElse]
        | none =>
          cases h4 : to_datetime "%m/%d/%y" s with
          | some d => simp [List.findSome?, h1, h2, h3, h4, Option.orElse]
          | none => simp [List.findSome?, h1, h2, h3, h4, Option.orElse]
  · rw [parse_dates]
    exact List.findSome?_eq_none_iff
  · intro h
    rw [arrival_year, h]
    rfl

/-- Witness for C6: a supported string recovers its exact calendar date, and an
unparseable string yields the missing marker for both the date and the year. -/
theorem c6_date_fallback_witness :
    parse_dates ("05 Mar 1901".data) = some ⟨1901, 3, 5⟩ ∧
    parse_dates ("not a date".data) = none ∧
    arrival_year ("not a date".data) = none :=
  ⟨by decide, by decide, (c6_date_fallback ("not a date".data)).2.2 (by decide)⟩

/-- C7: the contingency table built for the heatmap has one row per
(value-of-chosen-column, cluster) pair that actually occurs — no duplicates and
no zero-count rows — and a tuple belongs to it exactly when its count is the
(positive) number of matching rows and its annotation is the profile string
listing every configured feature other than the chosen column for that
cluster. -/
theorem c7_crosstab (rows : List KRow) (x : Feat)
    (profiles : Nat → Feat → String) :
    ((heat_data rows x profiles).map (fun e => (e.1, e.2.1))).Nodup ∧
    (∀ v c n s, ((v, c, n, s) ∈ heat_data rows x profiles ↔
      (0 < pair_count rows x v c ∧ n = pair_count rows x v c ∧
        s = profile_str x profiles c))) := by
  have hmap : (heat_data rows x profiles).map (fun e => (e.1, e.2.1)) =
      heat_pairs rows x := by
    rw [heat_data, List.map_map]
    have hcomp : ((fun (e : String × Nat × Nat × String) => (e.1, e.2.1)) ∘
        (fun p : String × Nat =>
          (p.1, p.2, pair_count rows x p.1 p.2, profile_str x profiles p.2))) =
        id := by
      funext p
      rfl
    rw [hcomp, List.map_id]
  constructor
  · rw [hmap]
    exact nodup_sortByB _ _ (List.nodup_dedup _)
  · intro v c n s
    constructor
    · intro h
      obtain ⟨p, hp, heq⟩ := List.mem_map.mp h
      obtain ⟨pv, pc⟩ := p
      obtain ⟨h1, h2, h3, h4⟩ :
          pv = v ∧ pc = c ∧ pair_count rows x pv pc = n ∧
            profile_str x profiles pc = s := by
        simpa [Prod.ext_iff] using heq
      subst h1
      subst h2
      have hp' : (pv, pc) ∈ (rows.map (fun r => (r.val x, r.cluster))).dedup :=
        (mem_sortByB _ _ _).mp hp
      obtain ⟨r, hr, hre⟩ := List.mem_map.mp (List.mem_dedup.mp hp')
      obtain ⟨hrv, hrc⟩ : r.val x = pv ∧ r.cluster = pc := by
        simpa [Prod.ext_iff] using hre
      have hrmem : r ∈ rows.filter (fun r => r.val x == pv && r.cluster == pc) :=
        List.mem_filter.mpr ⟨hr, by simp [hrv, hrc]⟩
      exact ⟨List.length_pos.mpr (List.ne_nil_of_mem hrmem), h3.symm, h4.symm⟩
    · rintro ⟨hpos, rfl, rfl⟩
      obtain ⟨r, hrf⟩ := List.exists_mem_of_length_pos hpos
      have hr := List.mem_filter.mp hrf
      have hd := hr.2
      rw [Bool.and_eq_true] at hd
      have hv : r.val x = v := beq_iff_eq.mp hd.1
      have hc : r.cluster = c := beq_iff_eq.mp hd.2
      have hpmem : (v, c) ∈ heat_pairs rows x := by
        rw [heat_pairs, mem_sortByB, List.mem_dedup]
        exact List.mem_map.mpr ⟨r, hr.1, by rw [hv, hc]⟩
      exact List.mem_map.mpr ⟨(v, c), hpmem, rfl⟩

end Migration
